import Mathlib

/-!
# Verification of the Python-compatibility resolution core

Shallow embedding of the compatibility-resolution algorithm of
`scripts/collect_python_compat.py` (function `get_python_compatibility_matrix`),
together with a model of the parts of the third-party `packaging` library that
the script calls (`packaging.version.Version` and
`packaging.specifiers.SpecifierSet`).

The modelled version grammar is the PEP 440 subset actually exercised by the
data model: a dotted numeric release (`N(.N)*`) optionally followed by a
pre-release suffix (separator `.`/`-`/`_` optional, tag one of
`a|alpha|b|beta|c|rc|pre|preview`, optional number, case-insensitive).
Epochs, post/dev segments, local version labels, leading `v` and surrounding
whitespace are outside the modelled subset and parse as failures, exactly as
genuinely malformed strings do.  Specifier sets are comma-separated clauses
with operators `>=, >, <=, <, ==, !=, ~=` over versions of that subset;
wildcard (`*`) and `===` clauses are outside the subset and parse as failures.

The script's network fallback (re-fetching a release's metadata when no
artifact carries a truthy `requires_python`) is I/O belonging to the fetch
collaborator; it is modelled as its own failure branch (`except: pass`,
leaving the constraint absent).
-/

namespace PyCompat

/-- Three-way comparison on `Nat` (models Python integer comparison). -/
def natCmp (a b : Nat) : Ordering :=
  if a < b then .lt else if a = b then .eq else .gt

/-- Lexicographic three-way comparison of `List Nat`, a strict prefix sorting
below its extensions; models Python tuple comparison on integer tuples. -/
def listCmp : List Nat → List Nat → Ordering
  | [], [] => .eq
  | [], _ :: _ => .lt
  | _ :: _, [] => .gt
  | x :: xs, y :: ys =>
    match natCmp x y with
    | .eq => listCmp xs ys
    | o => o

/-- Remove trailing zero components of a release tuple; `packaging` canonises
release tuples this way before comparing them. -/
def dropTrailingZeros (l : List Nat) : List Nat :=
  (l.reverse.dropWhile (fun n => n == 0)).reverse

/-- A parsed version: release components plus an optional pre-release marker
`(phase, number)` with phases `0 = a`, `1 = b`, `2 = rc` (the subset of
`packaging.version.Version` used by the script). -/
structure PyVersion where
  release : List Nat
  pre : Option (Nat × Nat)
  deriving DecidableEq

/-- Comparison of pre-release markers: a final release sorts above any
pre-release of the same release tuple; pre-releases sort by phase then number. -/
def cmpPre : Option (Nat × Nat) → Option (Nat × Nat) → Ordering
  | none, none => .eq
  | none, some _ => .gt
  | some _, none => .lt
  | some (p₁, n₁), some (p₂, n₂) =>
    match natCmp p₁ p₂ with
    | .eq => natCmp n₁ n₂
    | o => o

/-- Canonical comparison key of a version: release tuple without trailing
zeros, plus the pre-release marker. -/
def verKey (v : PyVersion) : List Nat × Option (Nat × Nat) :=
  (dropTrailingZeros v.release, v.pre)

/-- Lexicographic comparison of canonical keys. -/
def keyCmp (k₁ k₂ : List Nat × Option (Nat × Nat)) : Ordering :=
  match listCmp k₁.1 k₂.1 with
  | .eq => cmpPre k₁.2 k₂.2
  | o => o

/-- Total ordering on parsed versions (models `Version.__lt__` and friends). -/
def PyVersion.cmp (a b : PyVersion) : Ordering :=
  keyCmp (verKey a) (verKey b)

/-- `Version.is_prerelease` for the modelled subset. -/
def PyVersion.isPre (v : PyVersion) : Bool :=
  v.pre.isSome

/-- ASCII lower-casing of one character (`packaging` parses case-insensitively). -/
def lowerChar (c : Char) : Char :=
  if 'A' ≤ c && c ≤ 'Z' then Char.ofNat (c.toNat + 32) else c

/-- Value of a digit string (most significant first). -/
def digitsToNat (cs : List Char) : Nat :=
  cs.foldl (fun n c => n * 10 + (c.toNat - 48)) 0

/-- Parse the dotted numeric release prefix of a version string, returning the
components and the unconsumed remainder; fails when no leading digits exist.
A dot is consumed only when a further digit follows it. -/
def parseReleaseAux : Nat → List Char → Option (List Nat × List Char)
  | 0, _ => none
  | fuel + 1, cs =>
    let ds := cs.takeWhile Char.isDigit
    let rest := cs.dropWhile Char.isDigit
    if ds.isEmpty then none
    else
      match rest with
      | '.' :: c :: cs' =>
        if c.isDigit then
          match parseReleaseAux fuel (c :: cs') with
          | some (ns, r) => some (digitsToNat ds :: ns, r)
          | none => none
        else some ([digitsToNat ds], rest)
      | _ => some ([digitsToNat ds], rest)

/-- Recognise a pre-release tag, returning its phase and the remainder.
Longer spellings are matched first; `alpha`, `beta` and `pre`/`preview`
normalise to `a`, `b` and `rc` as in `packaging`. -/
def preTag : List Char → Option (Nat × List Char)
  | 'a' :: 'l' :: 'p' :: 'h' :: 'a' :: r => some (0, r)
  | 'b' :: 'e' :: 't' :: 'a' :: r => some (1, r)
  | 'p' :: 'r' :: 'e' :: 'v' :: 'i' :: 'e' :: 'w' :: r => some (2, r)
  | 'p' :: 'r' :: 'e' :: r => some (2, r)
  | 'r' :: 'c' :: r => some (2, r)
  | 'a' :: r => some (0, r)
  | 'b' :: r => some (1, r)
  | 'c' :: r => some (2, r)
  | _ => none

/-- Parse an optional pre-release suffix occupying the whole remainder: an
optional separator, a tag, and an optional number (missing number means 0).
Anything else makes the whole version string unparseable. -/
def parsePre (cs : List Char) : Option (Option (Nat × Nat)) :=
  match cs with
  | [] => some none
  | _ =>
    let cs' := match cs with
      | '.' :: r => r
      | '-' :: r => r
      | '_' :: r => r
      | r => r
    match preTag cs' with
    | none => none
    | some (phase, rest) =>
      let ds := rest.takeWhile Char.isDigit
      let rest' := rest.dropWhile Char.isDigit
      if rest'.isEmpty then some (some (phase, digitsToNat ds)) else none

/-- `packaging.version.Version(s)` restricted to the modelled subset:
`some` on success, `none` where the constructor raises `InvalidVersion`. -/
def pyParseVersion (s : String) : Option PyVersion :=
  let cs := s.data.map lowerChar
  match parseReleaseAux (cs.length + 1) cs with
  | none => none
  | some (rel, rest) =>
    match parsePre rest with
    | none => none
    | some p => some ⟨rel, p⟩

/-- `True` exactly when the string parses to a pre-release version
(`Version(s).is_prerelease`); unparseable strings give `false`. -/
def strIsPrerelease (s : String) : Bool :=
  ((pyParseVersion s).map PyVersion.isPre).getD false

/-- Comparison operators of a version specifier clause. -/
inductive CmpOp
  | ge
  | gt
  | le
  | lt
  | eq
  | ne
  | compat
  deriving DecidableEq

/-- One clause of a specifier set: an operator and its version operand. -/
structure Specifier where
  op : CmpOp
  ver : PyVersion
  deriving DecidableEq

/-- Split a character list at commas (models `str.split(",")`). -/
def splitCommas (cs : List Char) : List (List Char) :=
  let step := fun c (acc : List Char × List (List Char)) =>
    if c = ',' then ([], acc.1 :: acc.2) else (c :: acc.1, acc.2)
  let r := cs.foldr step ([], [])
  r.1 :: r.2

/-- Drop surrounding spaces of a clause (models `str.strip()` for the spaces
occurring in constraint strings). -/
def trimSpaces (cs : List Char) : List Char :=
  ((cs.dropWhile (fun c => c == ' ')).reverse.dropWhile (fun c => c == ' ')).reverse

/-- Parse one specifier clause: operator followed by a version, longer
operators first.  A `~=` clause additionally requires at least two release
components, as `packaging` does. -/
def parseSpecifier (cs : List Char) : Option Specifier :=
  let mk := fun (op : CmpOp) (r : List Char) =>
    match pyParseVersion (String.mk (trimSpaces r)) with
    | some v =>
      if op = CmpOp.compat ∧ v.release.length < 2 then none else some ⟨op, v⟩
    | none => none
  match cs with
  | '>' :: '=' :: r => mk .ge r
  | '<' :: '=' :: r => mk .le r
  | '=' :: '=' :: r => mk .eq r
  | '!' :: '=' :: r => mk .ne r
  | '~' :: '=' :: r => mk .compat r
  | '>' :: r => mk .gt r
  | '<' :: r => mk .lt r
  | _ => none

/-- `packaging.specifiers.SpecifierSet(s)` restricted to the modelled subset:
clauses split at commas, empty clauses discarded, every remaining clause must
parse; `none` where the constructor raises `InvalidSpecifier`. -/
def parseSpecifierSet (s : String) : Option (List Specifier) :=
  let parts := (splitCommas s.data).map trimSpaces
  (parts.filter (fun p => !p.isEmpty)).mapM parseSpecifier

/-- Pad a release tuple with zeros up to length `n`. -/
def padTo (l : List Nat) (n : Nat) : List Nat :=
  l ++ List.replicate (n - l.length) 0

/-- Prefix condition of a compatible-release clause `~= V`: the candidate's
release tuple, zero-padded, must agree with `V`'s release tuple without its
last component. -/
def compatOk (v spec : PyVersion) : Bool :=
  let pfx := spec.release.dropLast
  (padTo v.release pfx.length).take pfx.length == pfx

/-- Satisfaction of one specifier clause by a version
(models `Specifier.contains` for the subset's operators). -/
def specSatisfies (v : PyVersion) (sp : Specifier) : Bool :=
  match sp.op with
  | .ge => v.cmp sp.ver != .lt
  | .gt => v.cmp sp.ver == .gt
  | .le => v.cmp sp.ver != .gt
  | .lt => v.cmp sp.ver == .lt
  | .eq => v.cmp sp.ver == .eq
  | .ne => v.cmp sp.ver != .eq
  | .compat => (v.cmp sp.ver != .lt) && compatOk v sp.ver

/-- `version in specifier_set` with default pre-release policy: a pre-release
item is rejected unless some clause's operand is itself a pre-release;
otherwise every clause must be satisfied. -/
def ssContains (ss : List Specifier) (v : PyVersion) : Bool :=
  if v.isPre && !(ss.any (fun sp => sp.ver.pre.isSome)) then false
  else ss.all (specSatisfies v)

/-- One artifact's metadata as consumed by the script: the optional
`requires_python` constraint and the optional upload timestamp. -/
structure ArtifactRecord where
  requires_python : Option String
  upload_time_iso_8601 : Option String
  deriving DecidableEq, Inhabited

/-- A release mapping: insertion-ordered `data["releases"].items()`. -/
abbrev Releases := List (String × List ArtifactRecord)

/-- One non-null value of the compatibility matrix, with the three fields the
script stores. -/
structure CompatEntry where
  version : String
  released : String
  requires_python : Option String
  deriving DecidableEq

/-- The matrix: target runtime version to entry-or-null, in target order. -/
abbrev CompatMatrix := List (String × Option CompatEntry)

/-- The script's loop over `release_files` picking the first truthy
`requires_python` (the network fallback for an all-falsy list is out-of-core
I/O and is modelled as its failing branch, leaving the result `none`). -/
def extractRequires (files : List ArtifactRecord) : Option String :=
  match files.find? (fun f => f.requires_python.getD "" != "") with
  | some f => f.requires_python
  | none => none

/-- Lines 103–113 of the script: a falsy constraint supports everything;
otherwise parse the specifier set and test `Version(py_ver + ".0") in spec`,
with the bare `except` turning any parse failure into `False`. -/
def checkSupports (requires_python : Option String) (py_ver : String) : Bool :=
  if requires_python.getD "" == "" then true
  else
    match parseSpecifierSet (requires_python.getD "") with
    | none => false
    | some ss =>
      match pyParseVersion (py_ver ++ ".0") with
      | none => false
      | some v => ssContains ss v

/-- Stable descending insertion: an element is placed after every element
strictly greater than it, so equal keys keep their original relative order. -/
def insDesc (gtb : α → α → Bool) (x : α) : List α → List α
  | [] => [x]
  | y :: ys => if gtb y x then y :: insDesc gtb x ys else x :: y :: ys

/-- Stable descending sort by a strict greater-than test; models Python's
stable `sorted(..., reverse=True)`. -/
def sortDesc (gtb : α → α → Bool) (l : List α) : List α :=
  l.foldr (insDesc gtb) []

/-- Strict greater-than on optional parsed versions; an unparseable side is
never strictly greater (the parsed-key sort is only reached when every key
parses, so these cases never arise there). -/
def optVerGt : Option PyVersion → Option PyVersion → Bool
  | some va, some vb => va.cmp vb == .gt
  | _, _ => false

/-- Strict greater-than of two releases by parsed version key
(`key=lambda x: Version(x[0])`); only applied when every key parses. -/
def verGt (a b : String × List ArtifactRecord) : Bool :=
  optVerGt (pyParseVersion a.1) (pyParseVersion b.1)

/-- Python string comparison: lexicographic by character code point. -/
def strCmp (a b : String) : Ordering :=
  listCmp (a.data.map Char.toNat) (b.data.map Char.toNat)

/-- Strict greater-than of two releases by raw key string; the fallback sort
compares the `(version, files)` tuples, which Python decides on the distinct
first components. -/
def strGt (a b : String × List ArtifactRecord) : Bool :=
  strCmp a.1 b.1 == .gt

/-- Lines 61–69 of the script: sort newest-first by parsed version; if any
key raises `InvalidVersion`, fall back to a plain descending string sort of
the whole item list. -/
def sortReleases (rel : Releases) : Releases :=
  if rel.all (fun r => (pyParseVersion r.1).isSome) then sortDesc verGt rel
  else sortDesc strGt rel

/-- The matrix value recorded for a selected release: its key string, the
first artifact's upload timestamp (`.get(..., "")`), and the extracted
constraint. -/
def mkEntry (r : String × List ArtifactRecord) : CompatEntry :=
  { version := r.1
    released := (r.2.headD default).upload_time_iso_8601.getD ""
    requires_python := extractRequires r.2 }

/-- One release's pass over the matrix (lines 72–120): empty artifact lists
are skipped; each still-null target whose constraint check passes receives
this release's entry. -/
def updateRelease (r : String × List ArtifactRecord) (m : CompatMatrix) : CompatMatrix :=
  if r.2.isEmpty then m
  else
    m.map (fun e =>
      (e.1,
        match e.2 with
        | some v => some v
        | none =>
          if checkSupports (extractRequires r.2) e.1 then some (mkEntry r) else none))

/-- The fixed target list of the script. -/
def python_versions : List String :=
  ["3.7", "3.8", "3.9", "3.10", "3.11", "3.12", "3.13", "3.14"]

/-- The resolution core for an explicit target list: initialise every target
to null, then fold the newest-first release list through `updateRelease`. -/
def resolveCore (rel : Releases) (targets : List String) : CompatMatrix :=
  (sortReleases rel).foldl (fun m r => updateRelease r m) (targets.map (fun t => (t, none)))

/-- `get_python_compatibility_matrix`, restricted to its pure core: the
release mapping is the function's input (the HTTP fetch supplying it is the
collaborator), the targets are the fixed `python_versions`. -/
def get_python_compatibility_matrix (rel : Releases) : CompatMatrix :=
  resolveCore rel python_versions

/-- A release is a live candidate for a target when its artifact list is
non-empty and its extracted constraint passes the target's check. -/
def qualifies (t : String) (r : String × List ArtifactRecord) : Bool :=
  !r.2.isEmpty && checkSupports (extractRequires r.2) t

/-- The entry a single target receives from a scan list: the first qualifying
release, made into an entry. -/
def selectFor (l : Releases) (t : String) : Option CompatEntry :=
  (l.find? (qualifies t)).map mkEntry

/-- What one release's pass does to a single matrix cell: a filled cell stays,
an empty cell is filled exactly when the release qualifies for the target. -/
def stepEntry (r : String × List ArtifactRecord) (t : String)
    (cur : Option CompatEntry) : Option CompatEntry :=
  match cur with
  | some e => some e
  | none => if qualifies t r then some (mkEntry r) else none

/-- A pre-release-only release mapping (the spec's scenario B shape). -/
def relPre : Releases :=
  [("1.0.0a1", [⟨none, some "2020-01-01T00:00:00.000000Z"⟩])]

/-- A release mapping with two parseable keys and one unparseable key, laid
out so that string order and version order of the parseable keys disagree. -/
def relMixed : Releases :=
  [("2.0.0", [⟨none, some "2020-02-02T00:00:00.000000Z"⟩]),
   ("10.0.0", [⟨none, some "2021-03-03T00:00:00.000000Z"⟩]),
   ("notaversion", [⟨none, some "2022-04-04T00:00:00.000000Z"⟩])]

/-- The spec's concrete scenario A input. -/
def relScenarioA : Releases :=
  [("1.0.0", [⟨none, some "2020-01-01T00:00:00.000000Z"⟩]),
   ("2.0.0", [⟨some ">=3.9", some "2021-01-01T00:00:00.000000Z"⟩])]

/-- Two release mappings identical except for their constraint strings, both
of which are satisfied by every target from 3.7 on. -/
def relEqA : Releases :=
  [("1.0.0", [⟨some ">=3.7", some "2020-01-01T00:00:00.000000Z"⟩])]

/-- Companion of `relEqA` with the other constraint string. -/
def relEqB : Releases :=
  [("1.0.0", [⟨some ">=3.4", some "2020-01-01T00:00:00.000000Z"⟩])]

/-- A mapping whose newest release has an empty artifact list. -/
def relEmptyFiles : Releases :=
  [("9.9.9", []), ("1.0.0", [⟨none, some "2020-01-01T00:00:00.000000Z"⟩])]

-- Sanity checks of the embedded parsers against `packaging` behaviour.
example : pyParseVersion "1.0.0" = some ⟨[1, 0, 0], none⟩ := by rfl
example : pyParseVersion "1.0.0a1" = some ⟨[1, 0, 0], some (0, 1)⟩ := by rfl
example : pyParseVersion "2.0.0.rc3" = some ⟨[2, 0, 0], some (2, 3)⟩ := by rfl
example : pyParseVersion "notaversion" = none := by rfl
example : pyParseVersion "3.8" = some ⟨[3, 8], none⟩ := by rfl
example : PyVersion.cmp ⟨[3, 8], none⟩ ⟨[3, 8, 0], none⟩ = .eq := by rfl
example : PyVersion.cmp ⟨[1, 0, 0], some (0, 1)⟩ ⟨[1, 0, 0], none⟩ = .lt := by rfl
example : parseSpecifierSet ">=3.9" = some [⟨.ge, ⟨[3, 9], none⟩⟩] := by rfl
example : parseSpecifierSet ">=2.7, <3.13" =
    some [⟨.ge, ⟨[2, 7], none⟩⟩, ⟨.lt, ⟨[3, 13], none⟩⟩] := by rfl
example : parseSpecifierSet ">=3.*" = none := by rfl
example : checkSupports (some ">=3.9") "3.8" = false := by rfl
example : checkSupports (some ">=3.9") "3.9" = true := by rfl
example : checkSupports (some "~=3.8") "3.9" = true := by rfl
example : checkSupports (some "~=3.8.0") "3.9" = false := by rfl
example : checkSupports (some "bogus!!") "3.9" = false := by rfl

-- Sanity: the spec's concrete scenarios A, B and C.
example :
    (resolveCore relScenarioA ["3.8", "3.9", "3.10"]).map
        (fun p => (p.1, p.2.map CompatEntry.version)) =
      [("3.8", some "1.0.0"), ("3.9", some "2.0.0"), ("3.10", some "2.0.0")] := by rfl
example :
    (resolveCore relPre ["3.8"]).map (fun p => (p.1, p.2.map CompatEntry.version)) =
      [("3.8", some "1.0.0a1")] := by rfl
example :
    resolveCore [("1.0.0", [⟨some "<3.8", none⟩])] ["3.8"] = [("3.8", none)] := by rfl

/-- `natCmp` answers `eq` exactly on equal arguments. -/
theorem natCmp_eq_iff (a b : Nat) : natCmp a b = .eq ↔ a = b := by
  unfold natCmp
  split
  next h => simp only [reduceCtorEq, false_iff]; omega
  next h =>
    split
    next h' => simpa using h'
    next h' => simp only [reduceCtorEq, false_iff]; omega

/-- `natCmp` answers `lt` exactly on strictly smaller first arguments. -/
theorem natCmp_lt_iff (a b : Nat) : natCmp a b = .lt ↔ a < b := by
  unfold natCmp
  split
  next h => simpa using h
  next h =>
    split
    next h' => simp only [reduceCtorEq, false_iff]; omega
    next h' => simp only [reduceCtorEq, false_iff]; omega

/-- Swapping the arguments of `natCmp` swaps the verdict. -/
theorem natCmp_swap (a b : Nat) : natCmp a b = (natCmp b a).swap := by
  unfold natCmp
  rcases Nat.lt_trichotomy a b with h | h | h
  · rw [if_pos h, if_neg (Nat.lt_asymm h), if_neg (Ne.symm (Nat.ne_of_lt h))]
    rfl
  · subst h
    rw [if_neg (lt_irrefl a), if_pos rfl]
    rfl
  · rw [if_neg (Nat.lt_asymm h), if_neg (Nat.ne_of_gt h), if_pos h]
    rfl

/-- `listCmp` answers `eq` exactly on equal lists. -/
theorem listCmp_eq_iff : ∀ (a b : List Nat), listCmp a b = .eq ↔ a = b
  | [], [] => by simp [listCmp]
  | [], _ :: _ => by simp [listCmp]
  | _ :: _, [] => by simp [listCmp]
  | x :: xs, y :: ys => by
    simp only [listCmp]
    cases h : natCmp x y with
    | eq =>
      have hxy : x = y := (natCmp_eq_iff x y).mp h
      subst hxy
      simp [listCmp_eq_iff xs ys]
    | lt =>
      have hne : x ≠ y := by
        intro he
        rw [he, (natCmp_eq_iff y y).mpr rfl] at h
        cases h
      simp [hne]
    | gt =>
      have hne : x ≠ y := by
        intro he
        rw [he, (natCmp_eq_iff y y).mpr rfl] at h
        cases h
      simp [hne]

/-- Swapping the arguments of `listCmp` swaps the verdict. -/
theorem listCmp_swap : ∀ (a b : List Nat), listCmp a b = (listCmp b a).swap
  | [], [] => rfl
  | [], _ :: _ => rfl
  | _ :: _, [] => rfl
  | x :: xs, y :: ys => by
    simp only [listCmp]
    rw [natCmp_swap x y]
    cases natCmp y x <;> simp [Ordering.swap, listCmp_swap xs ys]

/-- Strict `listCmp` verdicts compose transitively. -/
theorem listCmp_lt_trans : ∀ (a b c : List Nat),
    listCmp a b = .lt → listCmp b c = .lt → listCmp a c = .lt
  | [], [], _ => by simp [listCmp]
  | [], _ :: _, [] => by simp [listCmp]
  | [], _ :: _, _ :: _ => by intros; rfl
  | _ :: _, [], _ => by simp [listCmp]
  | _ :: _, _ :: _, [] => by simp [listCmp]
  | x :: xs, y :: ys, z :: zs => by
    simp only [listCmp]
    cases hxy : natCmp x y with
    | gt => simp
    | lt =>
      intro _ h2
      cases hyz : natCmp y z with
      | gt => rw [hyz] at h2; simp at h2
      | eq =>
        have he : y = z := (natCmp_eq_iff y z).mp hyz
        subst he
        rw [hxy]
      | lt =>
        have hxz : natCmp x z = .lt := by
          rw [natCmp_lt_iff] at hxy hyz ⊢
          omega
        rw [hxz]
    | eq =>
      have he : x = y := (natCmp_eq_iff x y).mp hxy
      subst he
      intro h1 h2
      cases hxz : natCmp x z with
      | gt => rw [hxz] at h2; simp at h2
      | lt => rfl
      | eq =>
        rw [hxz] at h2
        exact listCmp_lt_trans xs ys zs h1 h2

/-- `cmpPre` answers `eq` exactly on equal markers. -/
theorem cmpPre_eq_iff : ∀ (a b : Option (Nat × Nat)), cmpPre a b = .eq ↔ a = b
  | none, none => by simp [cmpPre]
  | none, some _ => by simp [cmpPre]
  | some _, none => by simp [cmpPre]
  | some (p₁, n₁), some (p₂, n₂) => by
    simp only [cmpPre]
    cases h : natCmp p₁ p₂ with
    | eq =>
      have hp : p₁ = p₂ := (natCmp_eq_iff p₁ p₂).mp h
      subst hp
      simp [natCmp_eq_iff]
    | lt =>
      have hne : p₁ ≠ p₂ := by
        intro he
        rw [he, (natCmp_eq_iff p₂ p₂).mpr rfl] at h
        cases h
      simp [hne]
    | gt =>
      have hne : p₁ ≠ p₂ := by
        intro he
        rw [he, (natCmp_eq_iff p₂ p₂).mpr rfl] at h
        cases h
      simp [hne]

/-- Swapping the arguments of `cmpPre` swaps the verdict. -/
theorem cmpPre_swap : ∀ (a b : Option (Nat × Nat)), cmpPre a b = (cmpPre b a).swap
  | none, none => rfl
  | none, some _ => rfl
  | some _, none => rfl
  | some (p₁, n₁), some (p₂, n₂) => by
    simp only [cmpPre]
    rw [natCmp_swap p₁ p₂]
    cases natCmp p₂ p₁ <;> simp [Ordering.swap, natCmp_swap n₁ n₂]

/-- Strict `cmpPre` verdicts compose transitively. -/
theorem cmpPre_lt_trans : ∀ (a b c : Option (Nat × Nat)),
    cmpPre a b = .lt → cmpPre b c = .lt → cmpPre a c = .lt
  | none, none, _ => by simp [cmpPre]
  | none, some _, _ => by simp [cmpPre]
  | some _, none, none => by simp [cmpPre]
  | some _, none, some _ => by simp [cmpPre]
  | some (p₁, n₁), some (p₂, n₂), none => by intros; rfl
  | some (p₁, n₁), some (p₂, n₂), some (p₃, n₃) => by
    simp only [cmpPre]
    cases hab : natCmp p₁ p₂ with
    | gt => simp
    | lt =>
      intro _ h2
      cases hbc : natCmp p₂ p₃ with
      | gt => rw [hbc] at h2; simp at h2
      | eq =>
        have he : p₂ = p₃ := (natCmp_eq_iff p₂ p₃).mp hbc
        subst he
        rw [hab]
      | lt =>
        have hac : natCmp p₁ p₃ = .lt := by
          rw [natCmp_lt_iff] at hab hbc ⊢
          omega
        rw [hac]
    | eq =>
      have he : p₁ = p₂ := (natCmp_eq_iff p₁ p₂).mp hab
      subst he
      intro h1 h2
      cases hac : natCmp p₁ p₃ with
      | gt => rw [hac] at h2; simp at h2
      | lt => rfl
      | eq =>
        rw [hac] at h2
        rw [natCmp_lt_iff] at h1 h2 ⊢
        omega

/-- `keyCmp` answers `eq` exactly on equal canonical keys. -/
theorem keyCmp_eq_iff (k₁ k₂ : List Nat × Option (Nat × Nat)) :
    keyCmp k₁ k₂ = .eq ↔ k₁ = k₂ := by
  unfold keyCmp
  cases h : listCmp k₁.1 k₂.1 with
  | eq =>
    have h1 : k₁.1 = k₂.1 := (listCmp_eq_iff k₁.1 k₂.1).mp h
    rw [cmpPre_eq_iff]
    constructor
    · intro h2
      exact Prod.ext h1 h2
    · intro h2
      rw [h2]
  | lt =>
    have hne : k₁ ≠ k₂ := by
      intro he
      rw [he, (listCmp_eq_iff k₂.1 k₂.1).mpr rfl] at h
      cases h
    simp [hne]
  | gt =>
    have hne : k₁ ≠ k₂ := by
      intro he
      rw [he, (listCmp_eq_iff k₂.1 k₂.1).mpr rfl] at h
      cases h
    simp [hne]

/-- Swapping the arguments of `keyCmp` swaps the verdict. -/
theorem keyCmp_swap (k₁ k₂ : List Nat × Option (Nat × Nat)) :
    keyCmp k₁ k₂ = (keyCmp k₂ k₁).swap := by
  unfold keyCmp
  rw [listCmp_swap k₁.1 k₂.1]
  cases listCmp k₂.1 k₁.1 <;> simp [Ordering.swap, cmpPre_swap k₁.2 k₂.2]

/-- Strict `keyCmp` verdicts compose transitively. -/
theorem keyCmp_lt_trans (k₁ k₂ k₃ : List Nat × Option (Nat × Nat)) :
    keyCmp k₁ k₂ = .lt → keyCmp k₂ k₃ = .lt → keyCmp k₁ k₃ = .lt := by
  unfold keyCmp
  cases hab : listCmp k₁.1 k₂.1 with
  | gt => simp
  | lt =>
    intro _ h2
    cases hbc : listCmp k₂.1 k₃.1 with
    | gt => rw [hbc] at h2; simp at h2
    | eq =>
      have he : k₂.1 = k₃.1 := (listCmp_eq_iff k₂.1 k₃.1).mp hbc
      rw [← he, hab]
    | lt =>
      rw [listCmp_lt_trans k₁.1 k₂.1 k₃.1 hab hbc]
  | eq =>
    have he : k₁.1 = k₂.1 := (listCmp_eq_iff k₁.1 k₂.1).mp hab
    intro h1 h2
    rw [he]
    cases hbc : listCmp k₂.1 k₃.1 with
    | gt => rw [hbc] at h2; simp at h2
    | lt => rfl
    | eq =>
      rw [hbc] at h2
      exact cmpPre_lt_trans k₁.2 k₂.2 k₃.2 h1 h2

/-- A comparator whose `eq` verdict forces equality and whose `lt` verdict is
transitive has a transitive at-most relation. -/
theorem cmpLeTrans {α : Type} (X : α → α → Ordering)
    (heq : ∀ a b, X a b = .eq ↔ a = b)
    (hlt : ∀ a b c, X a b = .lt → X b c = .lt → X a c = .lt) :
    ∀ a b c, X a b ≠ .gt → X b c ≠ .gt → X a c ≠ .gt := by
  intro a b c h1 h2
  cases o1 : X a b with
  | gt => exact absurd o1 h1
  | eq =>
    have he := (heq a b).mp o1
    subst he
    exact h2
  | lt =>
    cases o2 : X b c with
    | gt => exact absurd o2 h2
    | eq =>
      have he := (heq b c).mp o2
      subst he
      rw [o1]
      simp
    | lt =>
      rw [hlt a b c o1 o2]
      simp

/-- The at-most relation induced by `keyCmp` is transitive. -/
theorem keyCmp_le_trans (k₁ k₂ k₃ : List Nat × Option (Nat × Nat)) :
    keyCmp k₁ k₂ ≠ .gt → keyCmp k₂ k₃ ≠ .gt → keyCmp k₁ k₃ ≠ .gt :=
  cmpLeTrans keyCmp keyCmp_eq_iff keyCmp_lt_trans k₁ k₂ k₃

/-- Swapping the arguments of version comparison swaps the verdict. -/
theorem pyCmp_swap (a b : PyVersion) : a.cmp b = (b.cmp a).swap :=
  keyCmp_swap (verKey a) (verKey b)

/-- The at-most relation induced by version comparison is transitive. -/
theorem pyCmp_le_trans (a b c : PyVersion) :
    a.cmp b ≠ .gt → b.cmp c ≠ .gt → a.cmp c ≠ .gt :=
  keyCmp_le_trans (verKey a) (verKey b) (verKey c)

/-- Unfolding `sortDesc` on a cons cell. -/
theorem sortDesc_cons {α : Type} (gtb : α → α → Bool) (y : α) (ys : List α) :
    sortDesc gtb (y :: ys) = insDesc gtb y (sortDesc gtb ys) := rfl

/-- Membership through `insDesc`. -/
theorem mem_insDesc {α : Type} (gtb : α → α → Bool) (x : α) (l : List α) (z : α) :
    z ∈ insDesc gtb x l ↔ z = x ∨ z ∈ l := by
  induction l with
  | nil => simp [insDesc]
  | cons y ys ih =>
    simp only [insDesc]
    split
    · simp only [List.mem_cons, ih]
      tauto
    · simp only [List.mem_cons]

/-- `sortDesc` neither adds nor removes elements. -/
theorem mem_sortDesc {α : Type} (gtb : α → α → Bool) (l : List α) (z : α) :
    z ∈ sortDesc gtb l ↔ z ∈ l := by
  induction l with
  | nil => simp [sortDesc]
  | cons y ys ih =>
    rw [sortDesc_cons, mem_insDesc, ih, List.mem_cons]

/-- Inserting into a descending list keeps it descending, provided the strict
test is asymmetric and its complement is transitive on the relevant elements. -/
theorem pairwise_insDesc {α : Type} (gtb : α → α → Bool) (G : α → Prop)
    (hasym : ∀ a b, G a → G b → gtb a b = true → gtb b a = false)
    (hneg : ∀ a b c, G a → G b → G c →
      gtb a b = false → gtb b c = false → gtb a c = false)
    (x : α) (hx : G x) :
    ∀ (l : List α), (∀ y ∈ l, G y) →
      l.Pairwise (fun a b => gtb b a = false) →
      (insDesc gtb x l).Pairwise (fun a b => gtb b a = false)
  | [], _, _ => by simp [insDesc]
  | y :: ys, hG, hl => by
    rw [List.pairwise_cons] at hl
    simp only [insDesc]
    split
    next hgt =>
      rw [List.pairwise_cons]
      constructor
      · intro z hz
        rcases (mem_insDesc gtb x ys z).mp hz with rfl | hz'
        · exact hasym y z (hG y (by simp)) hx hgt
        · exact hl.1 z hz'
      · exact pairwise_insDesc gtb G hasym hneg x hx ys
          (fun w hw => hG w (by simp [hw])) hl.2
    next hgt =>
      have hgt' : gtb y x = false := by
        revert hgt
        cases gtb y x <;> simp
      rw [List.pairwise_cons]
      constructor
      · intro z hz
        rcases List.mem_cons.mp hz with rfl | hz'
        · exact hgt'
        · exact hneg z y x (hG z (by simp [hz'])) (hG y (by simp)) hx
            (hl.1 z hz') hgt'
      · exact List.pairwise_cons.mpr hl

/-- `sortDesc` output is descending for the strict test. -/
theorem pairwise_sortDesc {α : Type} (gtb : α → α → Bool) (G : α → Prop)
    (hasym : ∀ a b, G a → G b → gtb a b = true → gtb b a = false)
    (hneg : ∀ a b c, G a → G b → G c →
      gtb a b = false → gtb b c = false → gtb a c = false) :
    ∀ (l : List α), (∀ y ∈ l, G y) →
      (sortDesc gtb l).Pairwise (fun a b => gtb b a = false)
  | [], _ => by simp [sortDesc]
  | y :: ys, hG => by
    rw [sortDesc_cons]
    refine pairwise_insDesc gtb G hasym hneg y (hG y (by simp)) (sortDesc gtb ys) ?_ ?_
    · intro w hw
      exact hG w (by simp [(mem_sortDesc gtb ys w).mp hw])
    · exact pairwise_sortDesc gtb G hasym hneg ys (fun w hw => hG w (by simp [hw]))

/-- In a descending list, the first element passing a predicate is maximal for
the strict test among all elements passing it. -/
theorem find_first_max {α : Type} (gtb : α → α → Bool) (G : α → Prop) (p : α → Bool)
    (hasym : ∀ a b, G a → G b → gtb a b = true → gtb b a = false) :
    ∀ (l : List α), (∀ y ∈ l, G y) →
      l.Pairwise (fun a b => gtb b a = false) →
      ∀ (x : α), l.find? p = some x →
        ∀ y ∈ l, p y = true → gtb y x = false
  | [], _, _, x, hx => by simp at hx
  | z :: zs, hG, hl, x, hx => by
    rw [List.find?_cons] at hx
    rw [List.pairwise_cons] at hl
    intro y hy hpy
    rcases List.mem_cons.mp hy with rfl | hy'
    · cases hpz : p y with
      | false => rw [hpz] at hpy; cases hpy
      | true =>
        rw [hpz] at hx
        have hzx : y = x := by simpa using hx
        subst hzx
        cases hyy : gtb y y with
        | false => rfl
        | true =>
          have := hasym y y (hG y (by simp)) (hG y (by simp)) hyy
          rw [this] at hyy
          cases hyy
    · cases hpz : p z with
      | true =>
        rw [hpz] at hx
        have hzx : z = x := by simpa using hx
        subst hzx
        exact hl.1 y hy'
      | false =>
        rw [hpz] at hx
        exact find_first_max gtb G p hasym zs
          (fun w hw => hG w (by simp [hw])) hl.2 x hx y hy' hpy

/-- Boolean equality on `Ordering` agrees with propositional equality. -/
theorem ordBeq_true_iff (a b : Ordering) : (a == b) = true ↔ a = b := by
  cases a <;> cases b <;> decide

/-- Boolean disequality on `Ordering` agrees with propositional disequality. -/
theorem ordBeq_false_iff (a b : Ordering) : (a == b) = false ↔ a ≠ b := by
  cases a <;> cases b <;> decide

/-- Swapping the arguments of `strCmp` swaps the verdict. -/
theorem strCmp_swap (a b : String) : strCmp a b = (strCmp b a).swap :=
  listCmp_swap (a.data.map Char.toNat) (b.data.map Char.toNat)

/-- The at-most relation induced by `strCmp` is transitive. -/
theorem strCmp_le_trans (a b c : String) :
    strCmp a b ≠ .gt → strCmp b c ≠ .gt → strCmp a c ≠ .gt :=
  cmpLeTrans listCmp listCmp_eq_iff listCmp_lt_trans
    (a.data.map Char.toNat) (b.data.map Char.toNat) (c.data.map Char.toNat)

/-- The string-order test is asymmetric. -/
theorem strGt_asymm (a b : String × List ArtifactRecord) (h : strGt a b = true) :
    strGt b a = false := by
  unfold strGt at h ⊢
  have hgt : strCmp a.1 b.1 = .gt := (ordBeq_true_iff _ _).mp h
  have hswap : strCmp b.1 a.1 = .lt := by
    rw [strCmp_swap, hgt]
    rfl
  rw [hswap]
  rfl

/-- The complement of the string-order test is transitive. -/
theorem strGt_neg_trans (a b c : String × List ArtifactRecord)
    (h1 : strGt a b = false) (h2 : strGt b c = false) : strGt a c = false := by
  unfold strGt at h1 h2 ⊢
  rw [ordBeq_false_iff] at h1 h2 ⊢
  exact strCmp_le_trans a.1 b.1 c.1 h1 h2

/-- The parsed-version test is asymmetric (a `true` verdict forces both sides
to parse). -/
theorem verGt_asymm (a b : String × List ArtifactRecord) (h : verGt a b = true) :
    verGt b a = false := by
  unfold verGt at h ⊢
  cases ha : pyParseVersion a.1 with
  | none => rw [ha] at h; cases hb : pyParseVersion b.1 <;> rw [hb] at h <;> cases h
  | some va =>
    cases hb : pyParseVersion b.1 with
    | none => rw [ha, hb] at h; cases h
    | some vb =>
      rw [ha, hb] at h
      have hgt : va.cmp vb = .gt := by
        rw [← ordBeq_true_iff]
        simpa [optVerGt] using h
      have hswap : vb.cmp va = .lt := by
        rw [pyCmp_swap, hgt]
        rfl
      simp only [optVerGt, hswap]
      rfl

/-- The complement of the parsed-version test is transitive on releases whose
keys parse. -/
theorem verGt_neg_trans (a b c : String × List ArtifactRecord)
    (ha : (pyParseVersion a.1).isSome = true)
    (hb : (pyParseVersion b.1).isSome = true)
    (hc : (pyParseVersion c.1).isSome = true)
    (h1 : verGt a b = false) (h2 : verGt b c = false) : verGt a c = false := by
  obtain ⟨va, hva⟩ := Option.isSome_iff_exists.mp ha
  obtain ⟨vb, hvb⟩ := Option.isSome_iff_exists.mp hb
  obtain ⟨vc, hvc⟩ := Option.isSome_iff_exists.mp hc
  unfold verGt at h1 h2 ⊢
  rw [hva, hvb] at h1
  rw [hvb, hvc] at h2
  rw [hva, hvc]
  have h1' : va.cmp vb ≠ .gt := by
    rw [← ordBeq_false_iff]
    simpa [optVerGt] using h1
  have h2' : vb.cmp vc ≠ .gt := by
    rw [← ordBeq_false_iff]
    simpa [optVerGt] using h2
  have h3 := pyCmp_le_trans va vb vc h1' h2'
  simpa [optVerGt, ordBeq_false_iff] using h3

/-- Looking a key up after rewriting every value in place. -/
theorem lookup_map_entry (f : String → Option CompatEntry → Option CompatEntry) :
    ∀ (m : CompatMatrix) (t : String),
      ((m.map (fun e => (e.1, f e.1 e.2))).lookup t) = (m.lookup t).map (f t)
  | [], _ => rfl
  | (k, v) :: m', t => by
    simp only [List.map, List.lookup]
    cases hk : (t == k) with
    | true =>
      have : t = k := by simpa using hk
      subst this
      rfl
    | false =>
      exact lookup_map_entry f m' t

/-- One release's pass, viewed through a single cell. -/
theorem lookup_updateRelease (r : String × List ArtifactRecord) (m : CompatMatrix)
    (t : String) :
    ((updateRelease r m).lookup t) = (m.lookup t).map (stepEntry r t) := by
  unfold updateRelease
  split
  next hemp =>
    have hq : qualifies t r = false := by simp [qualifies, hemp]
    cases h : m.lookup t with
    | none => rfl
    | some cur => cases cur <;> simp [stepEntry, hq]
  next hemp =>
    rw [lookup_map_entry (fun s cur =>
      match cur with
      | some v => some v
      | none =>
        if checkSupports (extractRequires r.2) s then some (mkEntry r) else none) m t]
    cases h : m.lookup t with
    | none => rfl
    | some cur =>
      cases cur with
      | some e => rfl
      | none =>
        have hq : qualifies t r = checkSupports (extractRequires r.2) t := by
          simp [qualifies, hemp]
        simp [stepEntry, hq]

/-- A whole fold of release passes, viewed through a single cell: a filled
cell survives, an empty cell receives the first qualifying release of the
scan list. -/
theorem lookup_foldl : ∀ (l : Releases) (m : CompatMatrix) (t : String),
    ((l.foldl (fun m r => updateRelease r m) m).lookup t)
      = (m.lookup t).map (fun cur =>
          match cur with
          | some e => some e
          | none => selectFor l t)
  | [], m, t => by
    rw [List.foldl_nil]
    cases h : m.lookup t with
    | none => rfl
    | some cur => cases cur <;> rfl
  | r :: rs, m, t => by
    have hstep : (r :: rs).foldl (fun m r => updateRelease r m) m
        = rs.foldl (fun m r => updateRelease r m) (updateRelease r m) := rfl
    rw [hstep, lookup_foldl rs (updateRelease r m) t, lookup_updateRelease]
    cases h : m.lookup t with
    | none => rfl
    | some cur =>
      cases cur with
      | some e => rfl
      | none =>
        cases hq : qualifies t r with
        | true => simp [stepEntry, hq, selectFor, List.find?_cons]
        | false => simp [stepEntry, hq, selectFor, List.find?_cons]

/-- A target in the target list starts out explicitly null. -/
theorem lookup_init : ∀ (targets : List String) (t : String), t ∈ targets →
    ((targets.map (fun s => (s, (none : Option CompatEntry)))).lookup t) = some none
  | [], _, h => by cases h
  | s :: ss, t, h => by
    simp only [List.map, List.lookup]
    cases hk : (t == s) with
    | true => rfl
    | false =>
      have hne : t ≠ s := by simpa using hk
      rcases List.mem_cons.mp h with rfl | h'
      · exact absurd rfl hne
      · exact lookup_init ss t h'

/-- A string outside the target list has no cell at all. -/
theorem lookup_init_none : ∀ (targets : List String) (t : String), t ∉ targets →
    ((targets.map (fun s => (s, (none : Option CompatEntry)))).lookup t) = none
  | [], _, _ => rfl
  | s :: ss, t, h => by
    simp only [List.map, List.lookup]
    cases hk : (t == s) with
    | true =>
      have : t = s := by simpa using hk
      subst this
      exact absurd (by simp) h
    | false =>
      exact lookup_init_none ss t (fun h' => h (by simp [h']))

/-- The resolver, viewed through one cell of the matrix: each target receives
exactly the first qualifying release of the sorted scan list. -/
theorem lookup_resolveCore (rel : Releases) (targets : List String) (t : String)
    (ht : t ∈ targets) :
    ((resolveCore rel targets).lookup t) = some (selectFor (sortReleases rel) t) := by
  unfold resolveCore
  rw [lookup_foldl, lookup_init targets t ht]
  rfl

/-- A string that is not a target has no cell in the result. -/
theorem lookup_resolveCore_off (rel : Releases) (targets : List String) (t : String)
    (ht : t ∉ targets) : ((resolveCore rel targets).lookup t) = none := by
  unfold resolveCore
  rw [lookup_foldl, lookup_init_none targets t ht]
  rfl

/-- Membership survives `sortReleases` in both directions. -/
theorem mem_sortReleases (rel : Releases) (r : String × List ArtifactRecord) :
    r ∈ sortReleases rel ↔ r ∈ rel := by
  unfold sortReleases
  split
  · exact mem_sortDesc verGt rel r
  · exact mem_sortDesc strGt rel r

/-- Every filled cell of the resolver's output comes from a qualifying release
of the input mapping, with the entry built from that release. -/
theorem selected_spec (rel : Releases) (targets : List String) (t : String)
    (e : CompatEntry)
    (h : ((resolveCore rel targets).lookup t) = some (some e)) :
    ∃ r ∈ rel, mkEntry r = e ∧ qualifies t r = true := by
  by_cases ht : t ∈ targets
  · rw [lookup_resolveCore rel targets t ht] at h
    have h' : selectFor (sortReleases rel) t = some e := by simpa using h
    unfold selectFor at h'
    cases hf : (sortReleases rel).find? (qualifies t) with
    | none => rw [hf] at h'; cases h'
    | some r =>
      rw [hf] at h'
      have hr : mkEntry r = e := by simpa using h'
      have hmem : r ∈ rel := (mem_sortReleases rel r).mp (List.mem_of_find?_eq_some hf)
      exact ⟨r, hmem, hr, List.find?_some hf⟩
  · rw [lookup_resolveCore_off rel targets t ht] at h
    cases h

/-- A filled cell always comes from a release with a non-empty artifact list. -/
theorem selected_nonempty (rel : Releases) (targets : List String) (t : String)
    (e : CompatEntry)
    (h : ((resolveCore rel targets).lookup t) = some (some e)) :
    ∃ r ∈ rel, mkEntry r = e ∧ qualifies t r = true ∧ r.2 ≠ [] := by
  obtain ⟨r, hmem, hmk, hq⟩ := selected_spec rel targets t e h
  refine ⟨r, hmem, hmk, hq, ?_⟩
  intro h2
  rw [qualifies, h2] at hq
  simp at hq

/-- Key list of the matrix is unchanged by one release's pass. -/
theorem keys_updateRelease (r : String × List ArtifactRecord) (m : CompatMatrix) :
    (updateRelease r m).map Prod.fst = m.map Prod.fst := by
  unfold updateRelease
  split
  · rfl
  · rw [List.map_map]
    rfl

/-- Key list of the matrix is unchanged by the whole fold. -/
theorem keys_foldl : ∀ (l : Releases) (m : CompatMatrix),
    ((l.foldl (fun m r => updateRelease r m) m).map Prod.fst) = m.map Prod.fst
  | [], _ => rfl
  | r :: rs, m => by
    have hstep : (r :: rs).foldl (fun m r => updateRelease r m) m
        = rs.foldl (fun m r => updateRelease r m) (updateRelease r m) := rfl
    rw [hstep, keys_foldl rs (updateRelease r m), keys_updateRelease]

/-- C1 counterexample: a mapping whose only release is a parseable pre-release
with no constraint and a non-empty artifact list; contrary to the claim, the
resolver fills the 3.8 cell with that pre-release instead of leaving it null. -/
theorem C1_counterexample :
    (relPre.all (fun r => strIsPrerelease r.1) = true) ∧
    ((get_python_compatibility_matrix relPre).lookup "3.8"
      = some (some ⟨"1.0.0a1", "2020-01-01T00:00:00.000000Z", none⟩)) :=
  ⟨by rfl, by rfl⟩

/-- C1 (amended): the resolver applies no pre-release filter at all.  Even
when every release of the mapping is a pre-release, any release with a
non-empty artifact list and an absent constraint is selected for every
target, so no matrix cell is null. -/
theorem C1_no_prerelease_filter (rel : Releases) (targets : List String) (t : String)
    (r₀ : String × List ArtifactRecord)
    (_hpre : ∀ r ∈ rel, strIsPrerelease r.1 = true)
    (hr₀ : r₀ ∈ rel) (hne : r₀.2 ≠ []) (hrp : extractRequires r₀.2 = none)
    (ht : t ∈ targets) :
    ∃ e : CompatEntry, ((resolveCore rel targets).lookup t) = some (some e) := by
  rw [lookup_resolveCore rel targets t ht]
  have hq : qualifies t r₀ = true := by
    unfold qualifies
    rw [hrp]
    have hf : r₀.2.isEmpty = false := by
      cases h2 : r₀.2 with
      | nil => exact absurd h2 hne
      | cons a l => rfl
    rw [hf]
    rfl
  cases hf : (sortReleases rel).find? (qualifies t) with
  | none =>
    have := List.find?_eq_none.mp hf r₀ ((mem_sortReleases rel r₀).mpr hr₀)
    exact absurd hq (by simpa using this)
  | some x => exact ⟨mkEntry x, by simp [selectFor, hf]⟩

/-- Witness for the amended C1 theorem at the pre-release-only mapping. -/
theorem C1_no_prerelease_filter_witness :
    ∃ e : CompatEntry,
      ((resolveCore relPre python_versions).lookup "3.8") = some (some e) :=
  C1_no_prerelease_filter relPre python_versions "3.8"
    ("1.0.0a1", [⟨none, some "2020-01-01T00:00:00.000000Z"⟩])
    (by decide) (by decide) (by decide) (by decide) (by decide)

/-- C2: a present but malformed `requires_python` string evaluates to false
for every target runtime version, and consequently no filled matrix cell ever
carries such a constraint string. -/
theorem C2_malformed_never_satisfies (rp : String) (h1 : rp ≠ "")
    (h2 : parseSpecifierSet rp = none) :
    (∀ pv : String, checkSupports (some rp) pv = false) ∧
    (∀ (rel : Releases) (targets : List String) (t : String) (e : CompatEntry),
      ((resolveCore rel targets).lookup t) = some (some e) →
      e.requires_python ≠ some rp) := by
  have hfalse : ∀ pv : String, checkSupports (some rp) pv = false := by
    intro pv
    unfold checkSupports
    have hne : (((some rp : Option String).getD "") == "") = false := by
      simpa using h1
    rw [hne]
    simp [h2]
  refine ⟨hfalse, ?_⟩
  intro rel targets t e h hreq
  obtain ⟨r, _, hmk, hq⟩ := selected_spec rel targets t e h
  have hex : extractRequires r.2 = some rp := by
    rw [← hmk] at hreq
    exact hreq
  rw [qualifies, Bool.and_eq_true] at hq
  rw [hex, hfalse t] at hq
  exact Bool.false_ne_true hq.2

/-- Witness for C2 at a concrete malformed constraint string. -/
theorem C2_malformed_witness :
    checkSupports (some "bogus!!") "3.9" = false :=
  (C2_malformed_never_satisfies "bogus!!" (by decide) (by rfl)).1 "3.9"

/-- C3 counterexample: a mapping with parseable keys 2.0.0 and 10.0.0 and the
unparseable key notaversion.  Contrary to the claim, the unparseable key is
not dropped: the whole mapping is string-sorted and the resolver selects
"notaversion" (string-greatest), not 10.0.0 (version-greatest parseable). -/
theorem C3_counterexample :
    ((pyParseVersion "2.0.0").isSome = true) ∧ (pyParseVersion "notaversion" = none) ∧
    ((get_python_compatibility_matrix relMixed).lookup "3.8"
      = some (some ⟨"notaversion", "2022-04-04T00:00:00.000000Z", none⟩)) :=
  ⟨by rfl, by rfl, by rfl⟩

/-- C3 (amended): whenever any release key is unparseable, the resolver falls
back to a lexicographic string sort of the entire release set; no key is
dropped, and the selected release for a target is string-maximal among all
qualifying releases. -/
theorem C3_fallback_string_max (rel : Releases) (targets : List String) (t : String)
    (e : CompatEntry)
    (hbad : rel.all (fun r => (pyParseVersion r.1).isSome) = false)
    (h : ((resolveCore rel targets).lookup t) = some (some e)) :
    ∃ r ∈ rel, r.1 = e.version ∧ qualifies t r = true ∧
      ∀ r' ∈ rel, qualifies t r' = true → strCmp e.version r'.1 ≠ .lt := by
  by_cases ht : t ∈ targets
  case neg =>
    rw [lookup_resolveCore_off rel targets t ht] at h
    cases h
  rw [lookup_resolveCore rel targets t ht] at h
  have hsort : sortReleases rel = sortDesc strGt rel := by
    unfold sortReleases
    rw [hbad]
    simp
  rw [hsort] at h
  have h' : selectFor (sortDesc strGt rel) t = some e := by simpa using h
  unfold selectFor at h'
  cases hf : (sortDesc strGt rel).find? (qualifies t) with
  | none => rw [hf] at h'; cases h'
  | some x =>
    rw [hf] at h'
    have hx : mkEntry x = e := by simpa using h'
    have hxmem : x ∈ rel := (mem_sortDesc strGt rel x).mp (List.mem_of_find?_eq_some hf)
    have hpair := pairwise_sortDesc strGt (fun _ => True)
      (fun a b _ _ hab => strGt_asymm a b hab)
      (fun a b c _ _ _ g1 g2 => strGt_neg_trans a b c g1 g2) rel (fun _ _ => trivial)
    refine ⟨x, hxmem, ?_, List.find?_some hf, ?_⟩
    · rw [← hx]
      rfl
    · intro r' hr' hq'
      have hmax := find_first_max strGt (fun _ => True) (qualifies t)
        (fun a b _ _ hab => strGt_asymm a b hab) (sortDesc strGt rel)
        (fun _ _ => trivial) hpair x hf r' ((mem_sortDesc strGt rel r').mpr hr') hq'
      rw [← hx]
      show strCmp (mkEntry x).version r'.1 ≠ .lt
      unfold strGt at hmax
      rw [ordBeq_false_iff] at hmax
      intro hlt
      apply hmax
      rw [strCmp_swap]
      have : strCmp (mkEntry x).version r'.1 = strCmp x.1 r'.1 := rfl
      rw [this] at hlt
      rw [hlt]
      rfl

/-- Witness for the amended C3 theorem at the mixed mapping. -/
theorem C3_fallback_witness :
    ∃ r ∈ relMixed,
      r.1 = (⟨"notaversion", "2022-04-04T00:00:00.000000Z", none⟩ : CompatEntry).version ∧
      qualifies "3.8" r = true ∧
      ∀ r' ∈ relMixed, qualifies "3.8" r' = true →
        strCmp (⟨"notaversion", "2022-04-04T00:00:00.000000Z", none⟩ : CompatEntry).version
          r'.1 ≠ .lt :=
  C3_fallback_string_max relMixed python_versions "3.8"
    ⟨"notaversion", "2022-04-04T00:00:00.000000Z", none⟩ (by rfl) (by rfl)

/-- C4 counterexample: two inputs differing only in their constraint strings,
both satisfied everywhere, give different matrices even though the version
and released fields agree throughout — a filled cell records the constraint
string as a third field, so its shape is not just version and released. -/
theorem C4_counterexample :
    (get_python_compatibility_matrix relEqA ≠ get_python_compatibility_matrix relEqB) ∧
    ((get_python_compatibility_matrix relEqA).map
        (fun p => (p.1, p.2.map (fun e => (e.version, e.released))))
      = (get_python_compatibility_matrix relEqB).map
        (fun p => (p.1, p.2.map (fun e => (e.version, e.released))))) :=
  ⟨by decide, by rfl⟩

/-- C4 (amended): every filled matrix cell has exactly the shape of a
version string, a released timestamp (first artifact's upload time, empty
string when missing), and the release's extracted requires_python constraint
(null when absent) — three fields, nothing more and nothing less. -/
theorem C4_entry_shape (rel : Releases) (targets : List String) (t : String)
    (e : CompatEntry) (h : ((resolveCore rel targets).lookup t) = some (some e)) :
    ∃ r ∈ rel, r.2 ≠ [] ∧ e.version = r.1 ∧
      e.released = (r.2.headD default).upload_time_iso_8601.getD "" ∧
      e.requires_python = extractRequires r.2 := by
  obtain ⟨r, hmem, hmk, _, hne⟩ := selected_nonempty rel targets t e h
  refine ⟨r, hmem, hne, ?_, ?_, ?_⟩
  · rw [← hmk]
    rfl
  · rw [← hmk]
    rfl
  · rw [← hmk]
    rfl

/-- Witness for the amended C4 theorem at a concrete input. -/
theorem C4_entry_shape_witness :
    ∃ r ∈ relEqA, r.2 ≠ [] ∧
      (⟨"1.0.0", "2020-01-01T00:00:00.000000Z", some ">=3.7"⟩ : CompatEntry).version = r.1 ∧
      (⟨"1.0.0", "2020-01-01T00:00:00.000000Z", some ">=3.7"⟩ : CompatEntry).released
        = (r.2.headD default).upload_time_iso_8601.getD "" ∧
      (⟨"1.0.0", "2020-01-01T00:00:00.000000Z", some ">=3.7"⟩ : CompatEntry).requires_python
        = extractRequires r.2 :=
  C4_entry_shape relEqA python_versions "3.7"
    ⟨"1.0.0", "2020-01-01T00:00:00.000000Z", some ">=3.7"⟩ (by rfl)

/-- C5: for a mapping whose keys all parse, any target's filled cell holds a
release whose parsed version is at least that of every qualifying release —
the newest-first scan makes the newest qualifying release win. -/
theorem C5_newest_qualifying_wins (rel : Releases) (targets : List String) (t : String)
    (r₁ : String × List ArtifactRecord)
    (hall : rel.all (fun r => (pyParseVersion r.1).isSome) = true)
    (hr₁ : r₁ ∈ rel) (hq₁ : qualifies t r₁ = true) (ht : t ∈ targets) :
    ∃ (e : CompatEntry) (ve v₁ : PyVersion),
      ((resolveCore rel targets).lookup t) = some (some e) ∧
      pyParseVersion e.version = some ve ∧ pyParseVersion r₁.1 = some v₁ ∧
      ve.cmp v₁ ≠ .lt := by
  have hG : ∀ y ∈ rel, (pyParseVersion y.1).isSome = true :=
    fun y hy => List.all_eq_true.mp hall y hy
  have hsort : sortReleases rel = sortDesc verGt rel := by
    unfold sortReleases
    rw [hall]
    rfl
  rw [lookup_resolveCore rel targets t ht, hsort]
  have hmem₁ : r₁ ∈ sortDesc verGt rel := (mem_sortDesc verGt rel r₁).mpr hr₁
  cases hf : (sortDesc verGt rel).find? (qualifies t) with
  | none =>
    exact absurd hq₁ (by simpa using List.find?_eq_none.mp hf r₁ hmem₁)
  | some x =>
    have hxmem : x ∈ rel := (mem_sortDesc verGt rel x).mp (List.mem_of_find?_eq_some hf)
    obtain ⟨vx, hvx⟩ := Option.isSome_iff_exists.mp (hG x hxmem)
    obtain ⟨v₁, hv₁⟩ := Option.isSome_iff_exists.mp (hG r₁ hr₁)
    have hpair := pairwise_sortDesc verGt (fun y => (pyParseVersion y.1).isSome = true)
      (fun a b _ _ hab => verGt_asymm a b hab)
      (fun a b c ga gb gc => verGt_neg_trans a b c ga gb gc) rel hG
    have hmax := find_first_max verGt (fun y => (pyParseVersion y.1).isSome = true)
      (qualifies t) (fun a b _ _ hab => verGt_asymm a b hab) (sortDesc verGt rel)
      (fun y hy => hG y ((mem_sortDesc verGt rel y).mp hy)) hpair x hf r₁ hmem₁ hq₁
    have hle : v₁.cmp vx ≠ .gt := by
      unfold verGt at hmax
      rw [hv₁, hvx] at hmax
      rw [← ordBeq_false_iff]
      simpa [optVerGt] using hmax
    have hge : vx.cmp v₁ ≠ .lt := by
      intro hlt
      apply hle
      rw [pyCmp_swap, hlt]
      rfl
    refine ⟨mkEntry x, vx, v₁, ?_, hvx, hv₁, hge⟩
    simp [selectFor, hf]

/-- Witness for C5 at scenario A, target 3.9, with 1.0.0 as the qualifying
older release; the selected 2.0.0 is at least as new. -/
theorem C5_newest_witness :
    ∃ (e : CompatEntry) (ve v₁ : PyVersion),
      ((resolveCore relScenarioA ["3.8", "3.9", "3.10"]).lookup "3.9") = some (some e) ∧
      pyParseVersion e.version = some ve ∧
      pyParseVersion ("1.0.0", ([⟨none, some "2020-01-01T00:00:00.000000Z"⟩] :
        List ArtifactRecord)).1 = some v₁ ∧
      ve.cmp v₁ ≠ .lt :=
  C5_newest_qualifying_wins relScenarioA ["3.8", "3.9", "3.10"] "3.9"
    ("1.0.0", [⟨none, some "2020-01-01T00:00:00.000000Z"⟩])
    (by rfl) (by decide) (by rfl) (by decide)

/-- C6: an absent, null or empty requires_python constraint evaluates to true
for every target runtime version; in particular a release all of whose
artifacts carry falsy constraints extracts the absent constraint and passes
every target's check. -/
theorem C6_absent_constraint_true (pv : String) (files : List ArtifactRecord)
    (h : ∀ f ∈ files, f.requires_python.getD "" = "") :
    checkSupports (extractRequires files) pv = true ∧
    checkSupports none pv = true ∧ checkSupports (some "") pv = true := by
  have hex : extractRequires files = none := by
    unfold extractRequires
    have hfind : files.find? (fun f => f.requires_python.getD "" != "") = none := by
      rw [List.find?_eq_none]
      intro f hf
      simp [h f hf]
    rw [hfind]
  rw [hex]
  exact ⟨rfl, rfl, rfl⟩

/-- Witness for C6 at a single artifact with no constraint. -/
theorem C6_absent_witness :
    checkSupports (extractRequires [⟨none, none⟩]) "3.8" = true ∧
    checkSupports none "3.8" = true ∧ checkSupports (some "") "3.8" = true :=
  C6_absent_constraint_true "3.8" [⟨none, none⟩] (by decide)

/-- C7: the resolver is total over arbitrary release mappings — every input,
including unparseable version keys and unparseable constraint strings, yields
a matrix whose key list is exactly the fixed target list (parse failures are
recovered locally, never propagated). -/
theorem C7_total_well_formed (rel : Releases) :
    (get_python_compatibility_matrix rel).map Prod.fst = python_versions := by
  unfold get_python_compatibility_matrix resolveCore
  rw [keys_foldl]
  rfl

/-- C8: scenario A — releases 1.0.0 (no constraint) and 2.0.0 (at least 3.9)
over targets 3.8, 3.9, 3.10 select 1.0.0, 2.0.0, 2.0.0 respectively. -/
theorem C8_scenario_a :
    (resolveCore relScenarioA ["3.8", "3.9", "3.10"]).map
        (fun p => (p.1, p.2.map CompatEntry.version))
      = [("3.8", some "1.0.0"), ("3.9", some "2.0.0"), ("3.10", some "2.0.0")] := by
  rfl

/-- C9: for a parseable constraint and a target whose extension with a
synthetic ".0" patch component parses to a non-pre-release version, the check
returns true exactly when the extended runtime version satisfies every clause
of the constraint. -/
theorem C9_eval_all_clauses (rp : String) (ss : List Specifier)
    (pv : String) (v : PyVersion) (h1 : rp ≠ "")
    (h2 : parseSpecifierSet rp = some ss)
    (h3 : pyParseVersion (pv ++ ".0") = some v) (h4 : v.pre = none) :
    (checkSupports (some rp) pv = true ↔ ∀ sp ∈ ss, specSatisfies v sp = true) := by
  have hcs : checkSupports (some rp) pv = ssContains ss v := by
    unfold checkSupports
    rw [show ((some rp : Option String).getD "") = rp from rfl]
    rw [show (rp == "") = false from by simpa using h1]
    rw [show (if (false = true) then true else
        match parseSpecifierSet rp with
        | none => false
        | some ss =>
          match pyParseVersion (pv ++ ".0") with
          | none => false
          | some v => ssContains ss v)
      = match parseSpecifierSet rp with
        | none => false
        | some ss =>
          match pyParseVersion (pv ++ ".0") with
          | none => false
          | some v => ssContains ss v from by simp]
    rw [h2, h3]
  rw [hcs]
  unfold ssContains
  rw [show v.isPre = false from by simp [PyVersion.isPre, h4]]
  simp [List.all_eq_true]

/-- Witness for C9 at the constraint at-least-3.9 and target 3.9. -/
theorem C9_eval_witness :
    (checkSupports (some ">=3.9") "3.9" = true ↔
      ∀ sp ∈ [(⟨CmpOp.ge, ⟨[3, 9], none⟩⟩ : Specifier)],
        specSatisfies ⟨[3, 9, 0], none⟩ sp = true) :=
  C9_eval_all_clauses ">=3.9" [⟨CmpOp.ge, ⟨[3, 9], none⟩⟩] "3.9" ⟨[3, 9, 0], none⟩
    (by decide) (by rfl) (by rfl) (by rfl)

/-- C10: a filled cell always originates from a release whose artifact list
is non-empty — a release with an empty artifact list is skipped and never
selected, even though its absent constraint would match every target. -/
theorem C10_empty_files_skipped (rel : Releases) (targets : List String) (t : String)
    (e : CompatEntry) (h : ((resolveCore rel targets).lookup t) = some (some e)) :
    ∃ r ∈ rel, r.1 = e.version ∧ r.2 ≠ [] := by
  obtain ⟨r, hmem, hmk, _, hne⟩ := selected_nonempty rel targets t e h
  refine ⟨r, hmem, ?_, hne⟩
  rw [← hmk]
  rfl

/-- Witness for C10: with an empty-artifact newest release 9.9.9 present, the
filled cell holds the older 1.0.0, which has artifacts. -/
theorem C10_empty_files_witness :
    ∃ r ∈ relEmptyFiles,
      r.1 = (⟨"1.0.0", "2020-01-01T00:00:00.000000Z", none⟩ : CompatEntry).version ∧
      r.2 ≠ [] :=
  C10_empty_files_skipped relEmptyFiles python_versions "3.8"
    ⟨"1.0.0", "2020-01-01T00:00:00.000000Z", none⟩ (by rfl)

end PyCompat
